import Mathlib

/-
Verification of the frame-sequence quality-analysis engine of the
Video_Analyser repository.  The pure computations of the source are
embedded as Lean definitions over ℚ (exact threshold and score
arithmetic) and over ℝ (statistics whose source uses square roots and
angles).  External backends (container decoding, dense optical flow)
enter only through their outputs: grayscale grids, timestamps, per-pair
mean flow magnitudes and flow fields, exactly as the source consumes
them.
-/

namespace VideoAnalyser

/-
Batch running, from src/video_analyser/batch_processor.py and
src/batch_analyze.py.  Per-file analysis is abstracted as a function
from a path to an Except value: ok carries the per-video analysis
payload, error carries the captured failure reason (missing file or
decode failure).  Completion order of the thread pool is abstracted to
submission order; the claims concern only which outcomes appear.
-/

/-- Outcome record built by batch_analyze.analyze_video: the returned
dict always carries the originating filepath, plus either the analysis
payload or the captured error. -/
structure BAOutcome (π ε α : Type) where
  path : π
  res : Except ε α

/-- True exactly on successful Except values. -/
def exceptIsOk {ε α : Type} : Except ε α → Bool
  | .ok _ => true
  | .error _ => false

/-- batch_analyze.analyze_video: runs the pipeline on one file; on an
exception it returns an error record tagged with the file's path
instead of raising. -/
def analyzeVideo {π ε α : Type} (f : π → Except ε α) (p : π) : BAOutcome π ε α :=
  ⟨p, f p⟩

/-- The serial collection loop of batch_analyze.main: one outcome per
file, appended in order. -/
def batchAnalyzeRun {π ε α : Type} (f : π → Except ε α) (files : List π) :
    List (BAOutcome π ε α) :=
  files.map (analyzeVideo f)

/-- BatchProcessor.process_files: harvests the futures, appending a
result only when future.result() succeeds; a raising task is logged and
contributes no entry to the returned list. -/
def processFiles {π ε α : Type} (f : π → Except ε α) (files : List π) : List α :=
  files.filterMap (fun p => (f p).toOption)

/-- A concrete two-file batch in which file 1 is unreadable. -/
def fDemo : ℕ → Except String ℕ := fun p => if p = 1 then .error "unreadable" else .ok 7

/-- The concrete file list for the batch counterexample. -/
def filesDemo : List ℕ := [0, 1]

/-
Duplicate classifier, from VideoAnalyzer._analyze_duplicate_frames and
VideoAnalyzer._calculate_simple_ssim in src/video_analyzer.py, acting
on the already-downsampled grayscale grids (cv2.resize is part of the
decoding backend; the classifier sees two equal-shape intensity grids).
-/

/-- np.mean of a grayscale grid. -/
def gridMean {h w : ℕ} (A : Fin h → Fin w → ℚ) : ℚ :=
  (∑ i, ∑ j, A i j) / (h * w)

/-- np.mean of cv2.absdiff of two grids. -/
def meanAbsDiff {h w : ℕ} (A B : Fin h → Fin w → ℚ) : ℚ :=
  (∑ i, ∑ j, |A i j - B i j|) / (h * w)

/-- diff_percentage = 1 - np.mean(absdiff) / 255.0. -/
def diffPct {h w : ℕ} (A B : Fin h → Fin w → ℚ) : ℚ :=
  1 - meanAbsDiff A B / 255

/-- np.var of a grid (population variance). -/
def gridVar {h w : ℕ} (A : Fin h → Fin w → ℚ) : ℚ :=
  (∑ i, ∑ j, (A i j - gridMean A) ^ 2) / (h * w)

/-- sigma12 = np.mean((img1 - mu1) * (img2 - mu2)). -/
def gridCov {h w : ℕ} (A B : Fin h → Fin w → ℚ) : ℚ :=
  (∑ i, ∑ j, (A i j - gridMean A) * (B i j - gridMean B)) / (h * w)

/-- VideoAnalyzer._calculate_simple_ssim with stabilizers
C1 = 0.01 ^ 2 = 1/10000 and C2 = 0.03 ^ 2 = 9/10000. -/
def simpleSsim {h w : ℕ} (A B : Fin h → Fin w → ℚ) : ℚ :=
  ((2 * gridMean A * gridMean B + 1 / 10000) * (2 * gridCov A B + 9 / 10000)) /
    ((gridMean A ^ 2 + gridMean B ^ 2 + 1 / 10000) * (gridVar A + gridVar B + 9 / 10000))

/-- The three classes a sampled frame (after the first) can fall into. -/
inductive FrameClass where
  | exactDup
  | nearDup
  | distinct
deriving DecidableEq

/-- The classification branch of _analyze_duplicate_frames: the
near-duplicate gate (diff_percentage >= diff_threshold or
ssim_score >= ssim_threshold) is tested first, and only inside it the
exact cutoffs (0.995 / 0.99) decide between exact and near duplicate. -/
def classifyFrame {h w : ℕ} (dThr sThr : ℚ) (A B : Fin h → Fin w → ℚ) : FrameClass :=
  if dThr ≤ diffPct A B ∨ sThr ≤ simpleSsim A B then
    if 995 / 1000 ≤ diffPct A B ∨ 99 / 100 ≤ simpleSsim A B then FrameClass.exactDup
    else FrameClass.nearDup
  else FrameClass.distinct

/-- Modelled from the spec's classification rule (section 4.3), which
tests the exact cutoffs first and the configurable thresholds second:
used as the refinement target for the classifier of the source. -/
def classifyFrameSpec {h w : ℕ} (dThr sThr : ℚ) (A B : Fin h → Fin w → ℚ) : FrameClass :=
  if 995 / 1000 ≤ diffPct A B ∨ 99 / 100 ≤ simpleSsim A B then FrameClass.exactDup
  else if dThr ≤ diffPct A B ∨ sThr ≤ simpleSsim A B then FrameClass.nearDup
  else FrameClass.distinct

/-- A concrete 1x1 grid of intensity 0. -/
def gridZero : Fin 1 → Fin 1 → ℚ := fun _ _ => 0

/-- A concrete 1x1 grid of intensity 1. -/
def gridOne : Fin 1 → Fin 1 → ℚ := fun _ _ => 1

/-
Pairwise frame metrics, from VideoAnalyzer._calculate_similarity and
VideoAnalyzer._calculate_motion in src/video_analyser/analyzer.py.
cv2.matchTemplate with TM_CCOEFF_NORMED on two equal-shape buffers
yields the single normalized cross-correlation coefficient of the two
mean-subtracted buffers.
-/

/-- Sum of squared deviations from the mean of a grid. -/
def sqDevSum {h w : ℕ} (A : Fin h → Fin w → ℚ) : ℚ :=
  ∑ i, ∑ j, (A i j - gridMean A) ^ 2

/-- Sum of products of deviations of two grids. -/
def covDevSum {h w : ℕ} (A B : Fin h → Fin w → ℚ) : ℚ :=
  ∑ i, ∑ j, (A i j - gridMean A) * (B i j - gridMean B)

/-- The TM_CCOEFF_NORMED coefficient computed by _calculate_similarity. -/
noncomputable def nccScore {h w : ℕ} (A B : Fin h → Fin w → ℚ) : ℝ :=
  ((covDevSum A B : ℚ) : ℝ) / Real.sqrt (((sqDevSum A : ℚ) : ℝ) * ((sqDevSum B : ℚ) : ℝ))

/-- A concrete 1x2 buffer with intensities 0 and 255 (nonzero variance). -/
def bufDemo : Fin 1 → Fin 2 → ℚ := fun _ j => if j = 0 then 0 else 255

/-
Quality score aggregator, from calculate_overall_score in
src/batch_analyze.py.  Each dict lookup with .get and its default is
modelled by an Option field and getD; a missing outer dict is an outer
none.  round(x, 2) is modelled by round2.
-/

/-- The overall_stats sub-dict of the FPS-dynamics result. -/
structure FpsOverallStats where
  mean_fps : Option ℚ
  std_fps : Option ℚ

/-- The effective_fps_pts_jitter sub-dict of the motion-quality result. -/
structure PtsJitterData where
  jitter_percentage : Option ℚ

/-- The duplicate_frame_ratio sub-dict (total_duplicate_ratio field in
the source is totalDuplicateFrac here). -/
structure DupData where
  totalDuplicateFrac : Option ℚ

/-- The motion_continuity sub-dict as seen by the aggregator. -/
structure MotionContData where
  motion_continuity_score : Option ℚ

/-- The wobble_distortion sub-dict as seen by the aggregator. -/
structure WobbleData where
  wobble_distortion_score : Option ℚ

/-- The resolution sub-dict of the basic analysis result. -/
structure ResolutionData where
  width : Option ℕ
  height : Option ℕ

/-- The four analysis dicts, restricted to the fields
calculate_overall_score reads. -/
structure AggregatorInput where
  overall_stats : Option FpsOverallStats
  ptsJitter : Option PtsJitterData
  dupRecord : Option DupData
  motionCont : Option MotionContData
  wobbleRecord : Option WobbleData
  resolutionRecord : Option ResolutionData

/-- Python round(x, 2) on the exact values the aggregator handles. -/
def round2 (q : ℚ) : ℚ := ((round (q * 100) : ℤ) : ℚ) / 100

/-- FPS stability sub-score (cap 25): max(0, 25 - cv * 0.5) with
cv = std_fps / mean_fps * 100 when mean_fps > 0 else 100. -/
def fpsStabilityScore (inp : AggregatorInput) : ℚ :=
  match inp.overall_stats with
  | none => 0
  | some s =>
    round2 (max 0 (25 -
      (if 0 < s.mean_fps.getD 0 then s.std_fps.getD 0 / s.mean_fps.getD 1 * 100 else 100)
        * (1 / 2)))

/-- PTS jitter sub-score (cap 15): max(0, 15 - jitter_percentage * 0.3),
with 100 as the .get default for a missing jitter_percentage. -/
def ptsJitterScore (inp : AggregatorInput) : ℚ :=
  match inp.ptsJitter with
  | none => 0
  | some p => round2 (max 0 (15 - p.jitter_percentage.getD 100 * (3 / 10)))

/-- Duplicate-frame sub-score (cap 15):
max(0, 15 - total_duplicate_ratio * 100 * 3). -/
def dupFramesScore (inp : AggregatorInput) : ℚ :=
  match inp.dupRecord with
  | none => 0
  | some d => round2 (max 0 (15 - d.totalDuplicateFrac.getD 1 * 100 * 3))

/-- Motion-continuity sub-score (cap 25):
motion_continuity_score * 0.25, with .get default 0 and no clamp. -/
def motionContSubScore (inp : AggregatorInput) : ℚ :=
  match inp.motionCont with
  | none => 0
  | some m => round2 (m.motion_continuity_score.getD 0 * (1 / 4))

/-- Wobble sub-score (cap 10):
max(0, 10 - wobble_distortion_score * 0.1), .get default 100. -/
def wobbleSubScore (inp : AggregatorInput) : ℚ :=
  match inp.wobbleRecord with
  | none => 0
  | some w => round2 (max 0 (10 - w.wobble_distortion_score.getD 100 * (1 / 10)))

/-- Resolution sub-score (cap 10): 4K -> 10, 1080p -> 8, 720p -> 5,
else 3; 0 when the resolution dict is absent. -/
def qualitySubScore (inp : AggregatorInput) : ℚ :=
  match inp.resolutionRecord with
  | none => 0
  | some r =>
    if 3840 ≤ r.width.getD 0 ∨ 2160 ≤ r.height.getD 0 then 10
    else if 1920 ≤ r.width.getD 0 ∨ 1080 ≤ r.height.getD 0 then 8
    else if 1280 ≤ r.width.getD 0 ∨ 720 ≤ r.height.getD 0 then 5
    else 3

/-- total_score = sum(scores.values()) before the total key is added. -/
def preTotal (inp : AggregatorInput) : ℚ :=
  fpsStabilityScore inp + ptsJitterScore inp + dupFramesScore inp +
    motionContSubScore inp + wobbleSubScore inp + qualitySubScore inp

/-- scores['total'] = round(total_score, 2). -/
def totalScore (inp : AggregatorInput) : ℚ := round2 (preTotal inp)

/-- The grade buckets of calculate_overall_score, keyed on total_score. -/
def gradeOf (t : ℚ) : String :=
  if 90 ≤ t then "优秀"
  else if 80 ≤ t then "良好"
  else if 70 ≤ t then "一般"
  else if 60 ≤ t then "较差"
  else "很差"

/-- scores['grade']. -/
def gradeScore (inp : AggregatorInput) : String := gradeOf (preTotal inp)

/-- Aggregator input of a synthetically perfect video: declared FPS f
with zero per-second variance, zero jitter percentage, zero duplicate
frames, continuity score 100, zero wobble distortion, resolution
wd x ht. -/
def perfectInput (f : ℚ) (wd ht : ℕ) : AggregatorInput :=
  ⟨some ⟨some f, some 0⟩, some ⟨some 0⟩, some ⟨some 0⟩,
    some ⟨some 100⟩, some ⟨some 0⟩, some ⟨some wd, some ht⟩⟩

/-
Per-second FPS buckets, from VideoAnalyzer.analyze_fps_dynamics and
VideoAnalyzer._aggregate_by_second in src/video_analyzer.py.  The
synthesized timestamp of frame k is k / declared_fps (0 when the
declared rate is not positive) and its bucket is int(timestamp).
-/

/-- The bucket (whole second) of frame k at the declared rate. -/
def secondOfFrame (fps : ℚ) (k : ℕ) : ℕ :=
  ⌊if 0 < fps then (k : ℚ) / fps else 0⌋₊

/-- The per-frame bucket keys, in frame order. -/
def secondsList (fps : ℚ) (n : ℕ) : List ℕ :=
  (List.range n).map (secondOfFrame fps)

/-- last_second = the largest bucket key (sorted keys, last entry). -/
def lastSecond (fps : ℚ) (n : ℕ) : ℕ :=
  (secondsList fps n).foldl max 0

/-- is_complete_second: a bucket is complete iff it is not the last one. -/
def isCompleteSecond (fps : ℚ) (n : ℕ) (s : ℕ) : Bool :=
  s ≠ lastSecond fps n

/-- actual_duration = frame_count / declared_fps (0 on a degenerate rate). -/
def videoDuration (fps : ℚ) (n : ℕ) : ℚ :=
  if 0 < fps then (n : ℚ) / fps else 0

/-- The bucket population of second s in a timestamp stream
(_aggregate_by_second folds each sampled frame into bucket
int(timestamp) and increments that bucket's frame_count). -/
def bucketCount (ts : List ℚ) (s : ℕ) : ℕ :=
  (ts.filter (fun t => ⌊t⌋₊ = s)).length

/-- The set of bucket keys of a timestamp stream. -/
def bucketKeys (ts : List ℚ) : Finset ℕ :=
  (ts.map (fun t => ⌊t⌋₊)).toFinset

/-- Timestamps of the frames kept by stride r out of n frames at the
declared rate (frame k is sampled when k % r = 0, and its timestamp is
k / fps). -/
def sampledTimestamps (fps : ℚ) (n r : ℕ) : List ℚ :=
  ((List.range n).filter (fun k => k % r = 0)).map
    (fun (k : ℕ) => if 0 < fps then (k : ℚ) / fps else 0)

/-
Motion continuity, from VideoAnalyzer._analyze_motion_continuity in
src/video_analyzer.py.  The optical-flow backend is abstracted to the
list of per-pair mean flow magnitudes the analyzer accumulates; the
statistics on that list are the analyzer's own.
-/

/-- np.mean of a list of reals (0 on the empty list). -/
noncomputable def meanR (l : List ℝ) : ℝ := l.sum / l.length

/-- np.var of a list of reals (population variance). -/
noncomputable def varR (l : List ℝ) : ℝ :=
  ((l.map (fun x => (x - meanR l) ^ 2)).sum) / l.length

/-- np.std of a list of reals. -/
noncomputable def stdR (l : List ℝ) : ℝ := Real.sqrt (varR l)

/-- The discrete jerk samples: for every window m(t-2), m(t-1), m(t) of
the magnitude sequence, abs(m(t) - 2 * m(t-1) + m(t-2)). -/
noncomputable def jerkValues : List ℝ → List ℝ
  | [] => []
  | a :: l =>
    match l with
    | b :: c :: _ => |c - 2 * b + a| :: jerkValues l
    | _ => []

/-- Number of jerk samples strictly above mean_jerk + 2 * std_jerk. -/
noncomputable def spikeCount (jerks : List ℝ) : ℕ :=
  (jerks.filter (fun j => meanR jerks + 2 * stdR jerks < j)).length

/-- jerk_peak_ratio: the fraction of jerk samples that are spikes. -/
noncomputable def spikeFrac (jerks : List ℝ) : ℝ :=
  (spikeCount jerks : ℝ) / jerks.length

/-- jerkiness_score: min(100, peak_ratio * 50 + mean_jerk / mean_motion * 50)
when mean_motion > 0, min(100, 0) otherwise; 0 outright when there are
no jerk samples. -/
noncomputable def jerkinessScore (mags : List ℝ) : ℝ :=
  if jerkValues mags = [] then 0
  else
    min 100 (if 0 < meanR mags
      then spikeFrac (jerkValues mags) * 50 + meanR (jerkValues mags) / meanR mags * 50
      else 0)

/-- motion_continuity_score = 100 - jerkiness_score. -/
noncomputable def motionContinuityScore (mags : List ℝ) : ℝ :=
  100 - jerkinessScore mags

/-- The dict returned by _analyze_motion_continuity; the
motion_continuity_score key is absent (none) on the early return that
fires when no motion magnitudes were collected. -/
structure MotionContinuityOut where
  mean_motion_magnitude : ℝ
  motion_std : ℝ
  mean_jerk : ℝ
  jerkPeakFrac : ℝ
  jerkiness_score : ℝ
  motion_continuity_score : Option ℝ

/-- VideoAnalyzer._analyze_motion_continuity from the magnitude list. -/
noncomputable def analyzeMotionContinuity (mags : List ℝ) : MotionContinuityOut :=
  if mags = [] then ⟨0, 0, 0, 0, 0, none⟩
  else
    ⟨meanR mags, stdR mags,
      if jerkValues mags = [] then 0 else meanR (jerkValues mags),
      if jerkValues mags = [] then 0 else spikeFrac (jerkValues mags),
      jerkinessScore mags,
      some (100 - jerkinessScore mags)⟩

/-- Python round(x, 2) over ℝ. -/
noncomputable def round2R (x : ℝ) : ℝ := ((round (x * 100) : ℤ) : ℝ) / 100

/-- The aggregator's motion-continuity sub-score fed from the analyzer
dict: round(dict.get('motion_continuity_score', 0) * 0.25, 2). -/
noncomputable def motionContSubScoreR (mags : List ℝ) : ℝ :=
  round2R ((analyzeMotionContinuity mags).motion_continuity_score.getD 0 * (1 / 4))

/-
Wobble distortion, from VideoAnalyzer._analyze_wobble_distortion in
src/video_analyzer.py.  A frame pair contributes a flow field, an
hgt x wd grid of displacement vectors; grid_size = 8.
-/

/-- The row (or column) indices of grid block i: blocks 0..6 take
grid_h = hgt / 8 rows each, block 7 absorbs the remainder. -/
def blockRows (hgt : ℕ) (i : Fin 8) : Finset ℕ :=
  Finset.Ico (i.val * (hgt / 8)) (if i.val = 7 then hgt else (i.val + 1) * (hgt / 8))

/-- The pixel set of grid block (i, j). -/
def blockSet (hgt wd : ℕ) (i j : Fin 8) : Finset (Fin hgt × Fin wd) :=
  Finset.univ.filter (fun p => p.1.val ∈ blockRows hgt i ∧ p.2.val ∈ blockRows wd j)

/-- np.mean of a function over a finite index set. -/
noncomputable def fsMean {ι : Type} (s : Finset ι) (f : ι → ℝ) : ℝ :=
  (∑ x ∈ s, f x) / s.card

/-- np.var of a function over a finite index set. -/
noncomputable def fsVar {ι : Type} (s : Finset ι) (f : ι → ℝ) : ℝ :=
  (∑ x ∈ s, (f x - fsMean s f) ^ 2) / s.card

/-- Flow magnitude np.sqrt(dx ^ 2 + dy ^ 2). -/
noncomputable def flowMag (v : ℝ × ℝ) : ℝ := Real.sqrt (v.1 ^ 2 + v.2 ^ 2)

/-- Flow direction np.arctan2(dy, dx), i.e. the argument of dx + i dy. -/
noncomputable def flowDir (v : ℝ × ℝ) : ℝ := Complex.arg ⟨v.1, v.2⟩

/-- block_variance = var(magnitude) + var(direction) * 10 on one block. -/
noncomputable def blockScore {hgt wd : ℕ} (F : Fin hgt → Fin wd → ℝ × ℝ)
    (i j : Fin 8) : ℝ :=
  fsVar (blockSet hgt wd i j) (fun p => flowMag (F p.1 p.2)) +
    fsVar (blockSet hgt wd i j) (fun p => flowDir (F p.1 p.2)) * 10

/-- grid_variance_score: np.mean of the 64 block scores of one pair. -/
noncomputable def pairWobble {hgt wd : ℕ} (F : Fin hgt → Fin wd → ℝ × ℝ) : ℝ :=
  (∑ i : Fin 8, ∑ j : Fin 8, blockScore F i j) / 64

/-- wobble_distortion_score = min(100, mean_wobble * 10), and 0 when no
frame pair was analyzed. -/
noncomputable def wobbleDistortionScore {hgt wd : ℕ}
    (flows : List (Fin hgt → Fin wd → ℝ × ℝ)) : ℝ :=
  match flows with
  | [] => 0
  | _ => min 100 (meanR (flows.map pairWobble) * 10)

/-- A concrete all-zero 8x8 flow field. -/
noncomputable def flowZero : Fin 8 → Fin 8 → ℝ × ℝ := fun _ _ => (0, 0)

/-
Theorems.  Helper lemmas first, then one theorem per claim (with a
counterexample and a witness where the claim's status requires them).
-/

theorem processFiles_allOk {π ε α : Type} (f : π → Except ε α) :
    ∀ l : List π, (∀ p ∈ l, ∃ a, f p = .ok a) → (processFiles f l).length = l.length := by
  intro l
  induction l with
  | nil => intro _; rfl
  | cons p rest ih =>
    intro hok
    obtain ⟨a, ha⟩ := hok p (List.mem_cons_self p rest)
    have hr := ih (fun q hq => hok q (List.mem_cons_of_mem p hq))
    simp [processFiles, List.filterMap_cons, ha, Except.toOption] at hr ⊢
    exact hr

theorem processFiles_count_len {π ε α : Type} [DecidableEq π]
    (f : π → Except ε α) (K : π) (e : ε) (hKf : f K = .error e) :
    ∀ files : List π, files.count K = 1 →
      (∀ p ∈ files, p ≠ K → ∃ a, f p = .ok a) →
      (processFiles f files).length + 1 = files.length := by
  intro files
  induction files with
  | nil => intro h; simp at h
  | cons p rest ih =>
    intro hcount hok
    by_cases hpK : p = K
    · subst hpK
      have hrest : rest.count p = 0 := by
        simp [List.count_cons] at hcount
        omega
      have hallok : ∀ q ∈ rest, ∃ a, f q = .ok a := by
        intro q hq
        refine hok q (List.mem_cons_of_mem p hq) ?_
        intro hqp
        subst hqp
        exact absurd hq (List.count_eq_zero.mp hrest)
      have hlen := processFiles_allOk f rest hallok
      simp [processFiles, List.filterMap_cons, hKf, Except.toOption] at hlen ⊢
      exact hlen
    · have hcount2 : rest.count K = 1 := by
        simp [List.count_cons, hpK] at hcount
        simpa using hcount
      have hok2 : ∀ q ∈ rest, q ≠ K → ∃ a, f q = .ok a := fun q hq =>
        hok q (List.mem_cons_of_mem p hq)
      have hr := ih hcount2 hok2
      obtain ⟨a, ha⟩ := hok p (List.mem_cons_self p rest) hpK
      simp [processFiles, List.filterMap_cons, ha, Except.toOption] at hr ⊢
      omega

/-- C1, counterexample to the claim as stated: on a 2-file batch whose
second file is unreadable, BatchProcessor.process_files returns a single
outcome, not 2; the failure yields no error outcome in the returned
list, so the batch run does not produce exactly N outcomes. -/
theorem claim_C1_counterexample :
    filesDemo.length = 2 ∧ processFiles fDemo filesDemo = [7] ∧
      ¬(processFiles fDemo filesDemo).length = filesDemo.length := by
  refine ⟨rfl, by decide, ?_⟩
  decide

/-- C1, amended: with exactly one failing file K in the batch, the
serial batch_analyze runner yields one outcome per file (N outcomes),
the error outcomes are exactly one record carrying K's path, and its
successful outcomes are exactly the list BatchProcessor.process_files
returns; process_files, however, returns only those N - 1 successful
results and drops the failing file's outcome, so the other files are
unaffected by the failure but the error record is absent from its
returned list. -/
theorem claim_C1 {π ε α : Type} [DecidableEq π] (f : π → Except ε α)
    (files : List π) (K : π) (e : ε)
    (hcount : files.count K = 1) (hfail : f K = .error e)
    (hok : ∀ p ∈ files, p ≠ K → ∃ a, f p = .ok a) :
    (batchAnalyzeRun f files).length = files.length ∧
      ((batchAnalyzeRun f files).filter (fun o => !exceptIsOk o.res)).map
        (fun o => o.path) = [K] ∧
      (batchAnalyzeRun f files).filterMap (fun o => o.res.toOption) =
        processFiles f files ∧
      (processFiles f files).length + 1 = files.length := by
  refine ⟨by simp [batchAnalyzeRun], ?_, ?_, ?_⟩
  · have h1 : (batchAnalyzeRun f files).filter (fun o => !exceptIsOk o.res) =
        (files.filter (fun p => !exceptIsOk (f p))).map (analyzeVideo f) := by
      rw [batchAnalyzeRun, List.filter_map]
      rfl
    have h2 : files.filter (fun p => !exceptIsOk (f p)) =
        files.filter (fun p => p == K) := by
      apply List.filter_congr
      intro p hp
      by_cases hpK : p = K
      · subst hpK
        simp [hfail, exceptIsOk]
      · obtain ⟨a, ha⟩ := hok p hp hpK
        simp [ha, exceptIsOk, hpK]
    have h3 : files.filter (fun p => p == K) = [K] := by
      have hlen : (files.filter (fun p => p == K)).length = 1 := by
        rw [← List.countP_eq_length_filter]
        exact hcount
      have hmem : ∀ x ∈ files.filter (fun p => p == K), x = K := by
        intro x hx
        have := List.of_mem_filter hx
        simpa using this
      match hfl : files.filter (fun p => p == K) with
      | [] => rw [hfl] at hlen; simp at hlen
      | [x] =>
        have := hmem x (by rw [hfl]; exact List.mem_singleton_self x)
        rw [this]
      | x :: y :: rest => rw [hfl] at hlen; simp at hlen
    rw [h1, h2, h3]
    simp [analyzeVideo]
  · rw [batchAnalyzeRun, List.filterMap_map]
    rfl
  · exact processFiles_count_len f K e hfail files hcount hok

/-- C1 witness: the amended statement instantiated on the concrete
2-file batch with file 1 unreadable. -/
theorem claim_C1_witness :
    (batchAnalyzeRun fDemo filesDemo).length = filesDemo.length ∧
      ((batchAnalyzeRun fDemo filesDemo).filter (fun o => !exceptIsOk o.res)).map
        (fun o => o.path) = [1] ∧
      (batchAnalyzeRun fDemo filesDemo).filterMap (fun o => o.res.toOption) =
        processFiles fDemo filesDemo ∧
      (processFiles fDemo filesDemo).length + 1 = filesDemo.length :=
  claim_C1 fDemo filesDemo 1 "unreadable" (by decide) rfl
    (by
      intro p hp hne
      simp [filesDemo] at hp
      rcases hp with rfl | rfl
      · exact ⟨7, rfl⟩
      · exact absurd rfl hne)

/-- C4, counterexample to the claim as stated: with both configurable
thresholds raised to 0.999, a 1x1 frame pair of intensities 0 and 1 has
diff_pct = 254/255 which is at least 0.995, so the claimed rule makes
it an exact duplicate, but the source classifies it distinct because
the near-duplicate gate (tested first) fails. -/
theorem claim_C4_counterexample :
    classifyFrame (999 / 1000) (999 / 1000) gridZero gridOne = FrameClass.distinct ∧
      classifyFrameSpec (999 / 1000) (999 / 1000) gridZero gridOne = FrameClass.exactDup := by
  constructor
  · norm_num [classifyFrame, diffPct, meanAbsDiff, simpleSsim, gridMean, gridVar,
      gridCov, gridZero, gridOne, Fin.sum_univ_one]
  · norm_num [classifyFrameSpec, diffPct, meanAbsDiff, simpleSsim, gridMean, gridVar,
      gridCov, gridZero, gridOne, Fin.sum_univ_one]

/-- C4, amended: whenever duplicate_threshold is at most 0.995 and
ssim_threshold is at most 0.99 (the defaults 0.98 and 0.95 included),
the source classifier agrees with the claimed sequential rule: exact
duplicate iff diff_pct >= 0.995 or SSIM >= 0.99, otherwise near
duplicate iff diff_pct >= duplicate_threshold or SSIM >= ssim_threshold,
otherwise distinct. -/
theorem claim_C4 {h w : ℕ} (dThr sThr : ℚ) (A B : Fin h → Fin w → ℚ)
    (hd : dThr ≤ 995 / 1000) (hs : sThr ≤ 99 / 100) :
    classifyFrame dThr sThr A B = classifyFrameSpec dThr sThr A B := by
  unfold classifyFrame classifyFrameSpec
  by_cases hIn : 995 / 1000 ≤ diffPct A B ∨ 99 / 100 ≤ simpleSsim A B
  · have hOut : dThr ≤ diffPct A B ∨ sThr ≤ simpleSsim A B := by
      rcases hIn with h1 | h1
      · exact Or.inl (le_trans hd h1)
      · exact Or.inr (le_trans hs h1)
    simp [hIn, hOut]
  · by_cases hOut : dThr ≤ diffPct A B ∨ sThr ≤ simpleSsim A B <;> simp [hIn, hOut]

/-- C4 witness: the amended statement at the default thresholds on a
concrete 1x1 frame pair. -/
theorem claim_C4_witness :
    (49 / 50 : ℚ) ≤ 995 / 1000 ∧ (19 / 20 : ℚ) ≤ 99 / 100 ∧
      classifyFrame (49 / 50) (19 / 20) gridZero gridOne =
        classifyFrameSpec (49 / 50) (19 / 20) gridZero gridOne :=
  ⟨by norm_num, by norm_num,
    claim_C4 (49 / 50) (19 / 20) gridZero gridOne (by norm_num) (by norm_num)⟩

/-- C9: two bit-identical grayscale buffers with nonzero pixel variance
have normalized cross-correlation exactly 1 (hence at least 0.99), mean
absolute difference exactly 0, and the duplicate classifier at the
default thresholds marks the pair an exact duplicate. -/
theorem claim_C9 {h w : ℕ} (A : Fin h → Fin w → ℚ) (hA : 0 < sqDevSum A) :
    nccScore A A = 1 ∧ (99 / 100 : ℝ) ≤ nccScore A A ∧ meanAbsDiff A A = 0 ∧
      classifyFrame (49 / 50) (19 / 20) A A = FrameClass.exactDup := by
  have hcov : covDevSum A A = sqDevSum A := by
    simp [covDevSum, sqDevSum, pow_two]
  have hS : (0 : ℝ) < ((sqDevSum A : ℚ) : ℝ) := by exact_mod_cast hA
  have hncc : nccScore A A = 1 := by
    rw [nccScore, hcov, Real.sqrt_mul_self hS.le]
    exact div_self (ne_of_gt hS)
  have hmad : meanAbsDiff A A = 0 := by
    simp [meanAbsDiff]
  refine ⟨hncc, by rw [hncc]; norm_num, hmad, ?_⟩
  have hdp : diffPct A A = 1 := by
    rw [diffPct, hmad]; norm_num
  unfold classifyFrame
  rw [hdp]
  norm_num

theorem round2_mono {q r : ℚ} (h : q ≤ r) : round2 q ≤ round2 r := by
  unfold round2
  have h1 : round (q * 100) ≤ round (r * 100) := by
    rw [round_eq, round_eq]
    exact Int.floor_le_floor (by linarith)
  have h2 : ((round (q * 100) : ℤ) : ℚ) ≤ ((round (r * 100) : ℤ) : ℚ) := by
    exact_mod_cast h1
  linarith

theorem round2_intDiv (z : ℤ) : round2 ((z : ℚ) / 100) = (z : ℚ) / 100 := by
  unfold round2
  have h : ((z : ℚ) / 100) * 100 = (z : ℚ) := by ring
  rw [h, round_intCast]

theorem round2_zero : round2 0 = 0 := by
  have := round2_intDiv 0
  simpa using this

theorem round2_int (z : ℤ) : round2 ((z : ℚ)) = (z : ℚ) := by
  have h := round2_intDiv (z * 100)
  have h2 : ((z * 100 : ℤ) : ℚ) / 100 = (z : ℚ) := by push_cast; ring
  rwa [h2] at h

theorem round2_nonneg {q : ℚ} (h : 0 ≤ q) : 0 ≤ round2 q := by
  have := round2_mono h
  rwa [round2_zero] at this

theorem round2_le_bound {q c : ℚ} (hc : round2 c = c) (h : q ≤ c) : round2 q ≤ c := by
  have := round2_mono h
  rwa [hc] at this

theorem round2_25 : round2 (25 : ℚ) = 25 := by exact_mod_cast round2_int 25

theorem round2_15 : round2 (15 : ℚ) = 15 := by exact_mod_cast round2_int 15

theorem round2_10 : round2 (10 : ℚ) = 10 := by exact_mod_cast round2_int 10

theorem fpsStability_bounds (inp : AggregatorInput)
    (hstd : ∀ s v, inp.overall_stats = some s → s.std_fps = some v → 0 ≤ v) :
    0 ≤ fpsStabilityScore inp ∧ fpsStabilityScore inp ≤ 25 := by
  cases hs : inp.overall_stats with
  | none => simp [fpsStabilityScore, hs]
  | some s =>
    have hcv : 0 ≤ (if 0 < s.mean_fps.getD 0
        then s.std_fps.getD 0 / s.mean_fps.getD 1 * 100 else 100) := by
      split_ifs with hm
      · have hstd0 : 0 ≤ s.std_fps.getD 0 := by
          cases hv : s.std_fps with
          | none => simp
          | some v => simpa using hstd s v hs hv
        have hmean : 0 < s.mean_fps.getD 1 := by
          cases hmv : s.mean_fps with
          | none => simp [hmv] at hm
          | some m => simp [hmv] at hm ⊢; exact hm
        have := div_nonneg hstd0 hmean.le
        linarith
      · norm_num
    simp only [fpsStabilityScore, hs]
    exact ⟨round2_nonneg (le_max_left _ _),
      round2_le_bound round2_25 (max_le (by norm_num) (by linarith))⟩

theorem ptsJitter_bounds (inp : AggregatorInput)
    (hjit : ∀ p v, inp.ptsJitter = some p → p.jitter_percentage = some v → 0 ≤ v) :
    0 ≤ ptsJitterScore inp ∧ ptsJitterScore inp ≤ 15 := by
  cases hp : inp.ptsJitter with
  | none => simp [ptsJitterScore, hp]
  | some p =>
    have hv : 0 ≤ p.jitter_percentage.getD 100 := by
      cases hj : p.jitter_percentage with
      | none => norm_num
      | some v => simpa using hjit p v hp hj
    simp only [ptsJitterScore, hp]
    exact ⟨round2_nonneg (le_max_left _ _),
      round2_le_bound round2_15 (max_le (by norm_num) (by linarith))⟩

theorem dupFrames_bounds (inp : AggregatorInput)
    (hdup : ∀ d v, inp.dupRecord = some d → d.totalDuplicateFrac = some v → 0 ≤ v) :
    0 ≤ dupFramesScore inp ∧ dupFramesScore inp ≤ 15 := by
  cases hd : inp.dupRecord with
  | none => simp [dupFramesScore, hd]
  | some d =>
    have hv : 0 ≤ d.totalDuplicateFrac.getD 1 := by
      cases hr : d.totalDuplicateFrac with
      | none => norm_num
      | some v => simpa using hdup d v hd hr
    simp only [dupFramesScore, hd]
    exact ⟨round2_nonneg (le_max_left _ _),
      round2_le_bound round2_15 (max_le (by norm_num) (by linarith))⟩

theorem motionCont_bounds (inp : AggregatorInput)
    (hmot : ∀ m v, inp.motionCont = some m → m.motion_continuity_score = some v →
      0 ≤ v ∧ v ≤ 100) :
    0 ≤ motionContSubScore inp ∧ motionContSubScore inp ≤ 25 := by
  cases hm : inp.motionCont with
  | none => simp [motionContSubScore, hm]
  | some m =>
    have hv : 0 ≤ m.motion_continuity_score.getD 0 ∧
        m.motion_continuity_score.getD 0 ≤ 100 := by
      cases hc : m.motion_continuity_score with
      | none => norm_num
      | some v => simpa using hmot m v hm hc
    simp only [motionContSubScore, hm]
    exact ⟨round2_nonneg (by linarith [hv.1]),
      round2_le_bound round2_25 (by linarith [hv.2])⟩

theorem wobbleSub_bounds (inp : AggregatorInput)
    (hwob : ∀ w v, inp.wobbleRecord = some w → w.wobble_distortion_score = some v →
      0 ≤ v) :
    0 ≤ wobbleSubScore inp ∧ wobbleSubScore inp ≤ 10 := by
  cases hw : inp.wobbleRecord with
  | none => simp [wobbleSubScore, hw]
  | some w =>
    have hv : 0 ≤ w.wobble_distortion_score.getD 100 := by
      cases hr : w.wobble_distortion_score with
      | none => norm_num
      | some v => simpa using hwob w v hw hr
    simp only [wobbleSubScore, hw]
    exact ⟨round2_nonneg (le_max_left _ _),
      round2_le_bound round2_10 (max_le (by norm_num) (by linarith))⟩

theorem qualitySub_bounds (inp : AggregatorInput) :
    0 ≤ qualitySubScore inp ∧ qualitySubScore inp ≤ 10 := by
  cases hr : inp.resolutionRecord with
  | none => simp [qualitySubScore, hr]
  | some r =>
    simp only [qualitySubScore, hr]
    split_ifs <;> norm_num

theorem cent_fpsStability (inp : AggregatorInput) :
    ∃ z : ℤ, fpsStabilityScore inp = (z : ℚ) / 100 := by
  cases hs : inp.overall_stats with
  | none => exact ⟨0, by simp [fpsStabilityScore, hs]⟩
  | some s =>
    simp only [fpsStabilityScore, hs]
    exact ⟨_, rfl⟩

theorem cent_ptsJitter (inp : AggregatorInput) :
    ∃ z : ℤ, ptsJitterScore inp = (z : ℚ) / 100 := by
  cases hp : inp.ptsJitter with
  | none => exact ⟨0, by simp [ptsJitterScore, hp]⟩
  | some p =>
    simp only [ptsJitterScore, hp]
    exact ⟨_, rfl⟩

theorem cent_dupFrames (inp : AggregatorInput) :
    ∃ z : ℤ, dupFramesScore inp = (z : ℚ) / 100 := by
  cases hd : inp.dupRecord with
  | none => exact ⟨0, by simp [dupFramesScore, hd]⟩
  | some d =>
    simp only [dupFramesScore, hd]
    exact ⟨_, rfl⟩

theorem cent_motionCont (inp : AggregatorInput) :
    ∃ z : ℤ, motionContSubScore inp = (z : ℚ) / 100 := by
  cases hm : inp.motionCont with
  | none => exact ⟨0, by simp [motionContSubScore, hm]⟩
  | some m =>
    simp only [motionContSubScore, hm]
    exact ⟨_, rfl⟩

theorem cent_wobbleSub (inp : AggregatorInput) :
    ∃ z : ℤ, wobbleSubScore inp = (z : ℚ) / 100 := by
  cases hw : inp.wobbleRecord with
  | none => exact ⟨0, by simp [wobbleSubScore, hw]⟩
  | some w =>
    simp only [wobbleSubScore, hw]
    exact ⟨_, rfl⟩

theorem cent_qualitySub (inp : AggregatorInput) :
    ∃ z : ℤ, qualitySubScore inp = (z : ℚ) / 100 := by
  cases hr : inp.resolutionRecord with
  | none => exact ⟨0, by simp [qualitySubScore, hr]⟩
  | some r =>
    simp only [qualitySubScore, hr]
    split_ifs
    · exact ⟨1000, by norm_num⟩
    · exact ⟨800, by norm_num⟩
    · exact ⟨500, by norm_num⟩
    · exact ⟨300, by norm_num⟩

theorem totalScore_eq_preTotal (inp : AggregatorInput) :
    totalScore inp = preTotal inp := by
  obtain ⟨z1, h1⟩ := cent_fpsStability inp
  obtain ⟨z2, h2⟩ := cent_ptsJitter inp
  obtain ⟨z3, h3⟩ := cent_dupFrames inp
  obtain ⟨z4, h4⟩ := cent_motionCont inp
  obtain ⟨z5, h5⟩ := cent_wobbleSub inp
  obtain ⟨z6, h6⟩ := cent_qualitySub inp
  have hp : preTotal inp = ((z1 + z2 + z3 + z4 + z5 + z6 : ℤ) : ℚ) / 100 := by
    rw [preTotal, h1, h2, h3, h4, h5, h6]
    push_cast
    ring
  rw [totalScore, hp, round2_intDiv]

/-- C2: with the inputs the upstream analyzers can produce (nonnegative
std_fps, jitter percentage, duplicate ratio and wobble score, and a
continuity score in 0..100), every one of the six sub-scores lies in
0..cap with caps 25, 15, 15, 25, 10, 10, and the stored total equals
the sum of the six sub-scores and lies in 0..100. -/
theorem claim_C2 (inp : AggregatorInput)
    (hstd : ∀ s v, inp.overall_stats = some s → s.std_fps = some v → 0 ≤ v)
    (hjit : ∀ p v, inp.ptsJitter = some p → p.jitter_percentage = some v → 0 ≤ v)
    (hdup : ∀ d v, inp.dupRecord = some d → d.totalDuplicateFrac = some v → 0 ≤ v)
    (hmot : ∀ m v, inp.motionCont = some m → m.motion_continuity_score = some v →
      0 ≤ v ∧ v ≤ 100)
    (hwob : ∀ w v, inp.wobbleRecord = some w → w.wobble_distortion_score = some v →
      0 ≤ v) :
    (0 ≤ fpsStabilityScore inp ∧ fpsStabilityScore inp ≤ 25) ∧
      (0 ≤ ptsJitterScore inp ∧ ptsJitterScore inp ≤ 15) ∧
      (0 ≤ dupFramesScore inp ∧ dupFramesScore inp ≤ 15) ∧
      (0 ≤ motionContSubScore inp ∧ motionContSubScore inp ≤ 25) ∧
      (0 ≤ wobbleSubScore inp ∧ wobbleSubScore inp ≤ 10) ∧
      (0 ≤ qualitySubScore inp ∧ qualitySubScore inp ≤ 10) ∧
      totalScore inp = fpsStabilityScore inp + ptsJitterScore inp +
        dupFramesScore inp + motionContSubScore inp + wobbleSubScore inp +
        qualitySubScore inp ∧
      0 ≤ totalScore inp ∧ totalScore inp ≤ 100 := by
  have b1 := fpsStability_bounds inp hstd
  have b2 := ptsJitter_bounds inp hjit
  have b3 := dupFrames_bounds inp hdup
  have b4 := motionCont_bounds inp hmot
  have b5 := wobbleSub_bounds inp hwob
  have b6 := qualitySub_bounds inp
  have ht : totalScore inp = fpsStabilityScore inp + ptsJitterScore inp +
      dupFramesScore inp + motionContSubScore inp + wobbleSubScore inp +
      qualitySubScore inp := totalScore_eq_preTotal inp
  refine ⟨b1, b2, b3, b4, b5, b6, ht, ?_, ?_⟩
  · rw [ht]; linarith [b1.1, b2.1, b3.1, b4.1, b5.1, b6.1]
  · rw [ht]; linarith [b1.2, b2.2, b3.2, b4.2, b5.2, b6.2]

/-- C2 witness: the statement instantiated on the concrete perfect
1080p input with declared rate 30. -/
theorem claim_C2_witness :
    (0 ≤ fpsStabilityScore (perfectInput 30 1920 1080) ∧
        fpsStabilityScore (perfectInput 30 1920 1080) ≤ 25) ∧
      (0 ≤ ptsJitterScore (perfectInput 30 1920 1080) ∧
        ptsJitterScore (perfectInput 30 1920 1080) ≤ 15) ∧
      (0 ≤ dupFramesScore (perfectInput 30 1920 1080) ∧
        dupFramesScore (perfectInput 30 1920 1080) ≤ 15) ∧
      (0 ≤ motionContSubScore (perfectInput 30 1920 1080) ∧
        motionContSubScore (perfectInput 30 1920 1080) ≤ 25) ∧
      (0 ≤ wobbleSubScore (perfectInput 30 1920 1080) ∧
        wobbleSubScore (perfectInput 30 1920 1080) ≤ 10) ∧
      (0 ≤ qualitySubScore (perfectInput 30 1920 1080) ∧
        qualitySubScore (perfectInput 30 1920 1080) ≤ 10) ∧
      totalScore (perfectInput 30 1920 1080) =
        fpsStabilityScore (perfectInput 30 1920 1080) +
        ptsJitterScore (perfectInput 30 1920 1080) +
        dupFramesScore (perfectInput 30 1920 1080) +
        motionContSubScore (perfectInput 30 1920 1080) +
        wobbleSubScore (perfectInput 30 1920 1080) +
        qualitySubScore (perfectInput 30 1920 1080) ∧
      0 ≤ totalScore (perfectInput 30 1920 1080) ∧
        totalScore (perfectInput 30 1920 1080) ≤ 100 :=
  claim_C2 (perfectInput 30 1920 1080)
    (by
      intro s v hs hv
      simp only [perfectInput] at hs
      injection hs with h
      subst h
      injection hv with h2
      subst h2
      norm_num)
    (by
      intro p v hp hv
      simp only [perfectInput] at hp
      injection hp with h
      subst h
      injection hv with h2
      subst h2
      norm_num)
    (by
      intro d v hd hv
      simp only [perfectInput] at hd
      injection hd with h
      subst h
      injection hv with h2
      subst h2
      norm_num)
    (by
      intro m v hm hv
      simp only [perfectInput] at hm
      injection hm with h
      subst h
      injection hv with h2
      subst h2
      norm_num)
    (by
      intro w v hw hv
      simp only [perfectInput] at hw
      injection hw with h
      subst h
      injection hv with h2
      subst h2
      norm_num)

theorem perfect_fps (f : ℚ) (hf : 0 < f) (wd ht : ℕ) :
    fpsStabilityScore (perfectInput f wd ht) = 25 := by
  have h : fpsStabilityScore (perfectInput f wd ht) = round2 25 := by
    simp [fpsStabilityScore, perfectInput, hf]
  rw [h]
  exact_mod_cast round2_int 25

theorem perfect_pts (f : ℚ) (wd ht : ℕ) :
    ptsJitterScore (perfectInput f wd ht) = 15 := by
  have h : ptsJitterScore (perfectInput f wd ht) = round2 15 := by
    simp [ptsJitterScore, perfectInput]
  rw [h]
  exact_mod_cast round2_int 15

theorem perfect_dup (f : ℚ) (wd ht : ℕ) :
    dupFramesScore (perfectInput f wd ht) = 15 := by
  have h : dupFramesScore (perfectInput f wd ht) = round2 15 := by
    simp [dupFramesScore, perfectInput]
  rw [h]
  exact_mod_cast round2_int 15

theorem perfect_motion (f : ℚ) (wd ht : ℕ) :
    motionContSubScore (perfectInput f wd ht) = 25 := by
  have h : motionContSubScore (perfectInput f wd ht) = round2 25 := by
    simp [motionContSubScore, perfectInput]
    norm_num
  rw [h]
  exact_mod_cast round2_int 25

theorem perfect_wobble (f : ℚ) (wd ht : ℕ) :
    wobbleSubScore (perfectInput f wd ht) = 10 := by
  have h : wobbleSubScore (perfectInput f wd ht) = round2 10 := by
    simp [wobbleSubScore, perfectInput]
  rw [h]
  exact_mod_cast round2_int 10

/-- C3, counterexample to the claim as stated: a video whose aggregator
inputs are perfect in every respect the claim lists, but whose
resolution is 1280x720, gets resolution sub-score 5 (not its cap 10)
and overall score 95, not 100. -/
theorem claim_C3_counterexample :
    qualitySubScore (perfectInput 30 1280 720) = 5 ∧
      totalScore (perfectInput 30 1280 720) = 95 ∧
      ¬totalScore (perfectInput 30 1280 720) = 100 := by
  have hq : qualitySubScore (perfectInput 30 1280 720) = 5 := by
    simp [qualitySubScore, perfectInput]
  have hpre : preTotal (perfectInput 30 1280 720) = 95 := by
    rw [preTotal, perfect_fps 30 (by norm_num) 1280 720, perfect_pts 30 1280 720,
      perfect_dup 30 1280 720, perfect_motion 30 1280 720, perfect_wobble 30 1280 720, hq]
    norm_num
  have ht : totalScore (perfectInput 30 1280 720) = 95 := by
    rw [totalScore, hpre]
    exact_mod_cast round2_int 95
  exact ⟨hq, ht, by rw [ht]; norm_num⟩

/-- C3, amended: on perfect aggregator inputs the five temporal
sub-scores reach their caps (25, 15, 15, 25, 10), the overall score is
90 plus the resolution sub-score, hence at least 93 and graded
excellent; all six sub-scores are at their caps with overall exactly
100 when additionally the resolution is at least 4K. -/
theorem claim_C3 (f : ℚ) (wd ht : ℕ) (hf : 0 < f) :
    fpsStabilityScore (perfectInput f wd ht) = 25 ∧
      ptsJitterScore (perfectInput f wd ht) = 15 ∧
      dupFramesScore (perfectInput f wd ht) = 15 ∧
      motionContSubScore (perfectInput f wd ht) = 25 ∧
      wobbleSubScore (perfectInput f wd ht) = 10 ∧
      totalScore (perfectInput f wd ht) = 90 + qualitySubScore (perfectInput f wd ht) ∧
      93 ≤ totalScore (perfectInput f wd ht) ∧
      gradeScore (perfectInput f wd ht) = "优秀" ∧
      ((3840 ≤ wd ∨ 2160 ≤ ht) → qualitySubScore (perfectInput f wd ht) = 10 ∧
        totalScore (perfectInput f wd ht) = 100) := by
  have h1 := perfect_fps f hf wd ht
  have h2 := perfect_pts f wd ht
  have h3 := perfect_dup f wd ht
  have h4 := perfect_motion f wd ht
  have h5 := perfect_wobble f wd ht
  have hq3 : 3 ≤ qualitySubScore (perfectInput f wd ht) ∧
      ∃ z : ℤ, qualitySubScore (perfectInput f wd ht) = (z : ℚ) := by
    simp only [qualitySubScore, perfectInput]
    split_ifs
    · exact ⟨by norm_num, ⟨10, by norm_num⟩⟩
    · exact ⟨by norm_num, ⟨8, by norm_num⟩⟩
    · exact ⟨by norm_num, ⟨5, by norm_num⟩⟩
    · exact ⟨by norm_num, ⟨3, by norm_num⟩⟩
  obtain ⟨hq, z, hz⟩ := hq3
  have hpre : preTotal (perfectInput f wd ht) =
      90 + qualitySubScore (perfectInput f wd ht) := by
    rw [preTotal, h1, h2, h3, h4, h5]
    ring
  have htot : totalScore (perfectInput f wd ht) =
      90 + qualitySubScore (perfectInput f wd ht) := by
    rw [totalScore, hpre, hz]
    have : (90 : ℚ) + (z : ℚ) = ((90 + z : ℤ) : ℚ) := by push_cast; ring
    rw [this, round2_int]
  refine ⟨h1, h2, h3, h4, h5, htot, by rw [htot]; linarith, ?_, ?_⟩
  · rw [gradeScore, hpre, gradeOf, if_pos (by linarith)]
  · intro h4k
    have hq10 : qualitySubScore (perfectInput f wd ht) = 10 := by
      simp only [qualitySubScore, perfectInput]
      rw [if_pos]
      simpa using h4k
    exact ⟨hq10, by rw [htot, hq10]; norm_num⟩

/-- C3 witness: the amended statement instantiated at declared rate 30
and 4K resolution. -/
theorem claim_C3_witness :
    (0 : ℚ) < 30 ∧
      (fpsStabilityScore (perfectInput 30 3840 2160) = 25 ∧
        ptsJitterScore (perfectInput 30 3840 2160) = 15 ∧
        dupFramesScore (perfectInput 30 3840 2160) = 15 ∧
        motionContSubScore (perfectInput 30 3840 2160) = 25 ∧
        wobbleSubScore (perfectInput 30 3840 2160) = 10 ∧
        totalScore (perfectInput 30 3840 2160) =
          90 + qualitySubScore (perfectInput 30 3840 2160) ∧
        93 ≤ totalScore (perfectInput 30 3840 2160) ∧
        gradeScore (perfectInput 30 3840 2160) = "优秀" ∧
        ((3840 ≤ 3840 ∨ 2160 ≤ 2160) → qualitySubScore (perfectInput 30 3840 2160) = 10 ∧
          totalScore (perfectInput 30 3840 2160) = 100)) :=
  ⟨by norm_num, claim_C3 30 3840 2160 (by norm_num)⟩

theorem foldl_max_le_of (b : ℕ) : ∀ (l : List ℕ) (a : ℕ), a ≤ b → (∀ x ∈ l, x ≤ b) →
    l.foldl max a ≤ b := by
  intro l
  induction l with
  | nil => intro a ha _; simpa using ha
  | cons x xs ih =>
    intro a ha hx
    simp only [List.foldl_cons]
    exact ih (max a x) (max_le ha (hx x (List.mem_cons_self x xs)))
      (fun y hy => hx y (List.mem_cons_of_mem x hy))

theorem le_foldl_max_init : ∀ (l : List ℕ) (a : ℕ), a ≤ l.foldl max a := by
  intro l
  induction l with
  | nil => intro a; simp
  | cons x xs ih =>
    intro a
    simp only [List.foldl_cons]
    exact le_trans (le_max_left a x) (ih (max a x))

theorem le_foldl_max : ∀ (l : List ℕ) (a x : ℕ), x ∈ l → x ≤ l.foldl max a := by
  intro l
  induction l with
  | nil => intro a x hx; simp at hx
  | cons y ys ih =>
    intro a x hx
    rcases List.mem_cons.mp hx with rfl | hx2
    · simp only [List.foldl_cons]
      exact le_trans (le_max_right a x) (le_foldl_max_init ys (max a x))
    · simp only [List.foldl_cons]
      exact ih (max a y) x hx2

theorem secondOfFrame_mono (fps : ℚ) {k m : ℕ} (h : k ≤ m) :
    secondOfFrame fps k ≤ secondOfFrame fps m := by
  unfold secondOfFrame
  split_ifs with hf
  · exact Nat.floor_mono ((div_le_div_iff_of_pos_right hf).mpr (by exact_mod_cast h))
  · exact le_refl _

theorem lastSecond_eq (fps : ℚ) (n : ℕ) (hn : 1 ≤ n) :
    lastSecond fps n = secondOfFrame fps (n - 1) := by
  apply le_antisymm
  · apply foldl_max_le_of
    · exact Nat.zero_le _
    · intro x hx
      simp only [secondsList, List.mem_map, List.mem_range] at hx
      obtain ⟨k, hk, rfl⟩ := hx
      exact secondOfFrame_mono fps (by omega)
  · apply le_foldl_max
    simp only [secondsList, List.mem_map]
    exact ⟨n - 1, List.mem_range.mpr (by omega), rfl⟩

/-- C7, counterexample to the claim as stated: at declared rate 1 with
2 frames the total duration is exactly 2 seconds — an integer number of
seconds, for which the claim predicts a complete final bucket — yet the
final bucket (second 1) is flagged incomplete. -/
theorem claim_C7_counterexample :
    videoDuration 1 2 = ((2 : ℤ) : ℚ) ∧ lastSecond 1 2 = 1 ∧
      isCompleteSecond 1 2 (lastSecond 1 2) = false := by
  refine ⟨by norm_num [videoDuration], ?_, ?_⟩
  · norm_num [lastSecond, secondsList, secondOfFrame, List.range_succ]
  · simp [isCompleteSecond]

/-- C7, amended: the final per-second bucket — the bucket holding the
last frame — is always flagged incomplete, regardless of whether the
video's duration is an integer number of seconds, and every non-final
bucket is flagged complete. -/
theorem claim_C7 (fps : ℚ) (n : ℕ) (hn : 1 ≤ n) :
    lastSecond fps n = secondOfFrame fps (n - 1) ∧
      isCompleteSecond fps n (secondOfFrame fps (n - 1)) = false ∧
      ∀ s ∈ secondsList fps n, s ≠ secondOfFrame fps (n - 1) →
        isCompleteSecond fps n s = true := by
  have hl := lastSecond_eq fps n hn
  refine ⟨hl, ?_, ?_⟩
  · simp [isCompleteSecond, hl]
  · intro s _ hs
    simp [isCompleteSecond, hl, hs]

/-- C7 witness: the amended statement instantiated at declared rate 2
with 3 frames. -/
theorem claim_C7_witness :
    lastSecond 2 3 = secondOfFrame 2 (3 - 1) ∧
      isCompleteSecond 2 3 (secondOfFrame 2 (3 - 1)) = false ∧
      ∀ s ∈ secondsList 2 3, s ≠ secondOfFrame 2 (3 - 1) →
        isCompleteSecond 2 3 s = true :=
  claim_C7 2 3 (by norm_num)

theorem bucketCount_eq_zero {ts : List ℚ} {s : ℕ} (h : s ∉ bucketKeys ts) :
    bucketCount ts s = 0 := by
  rw [bucketCount, List.length_eq_zero]
  rw [List.filter_eq_nil]
  intro t ht
  simp only [decide_eq_true_eq]
  intro hts
  exact h (by
    rw [bucketKeys, List.mem_toFinset, List.mem_map]
    exact ⟨t, ht, hts⟩)

theorem bucketCount_cons (a : ℚ) (ts : List ℚ) (s : ℕ) :
    bucketCount (a :: ts) s = (if ⌊a⌋₊ = s then 1 else 0) + bucketCount ts s := by
  rw [bucketCount, bucketCount, List.filter_cons]
  by_cases h : ⌊a⌋₊ = s
  · simp [h]
    omega
  · simp [h]

theorem sum_bucketCount (ts : List ℚ) :
    ∑ s ∈ bucketKeys ts, bucketCount ts s = ts.length := by
  induction ts with
  | nil => simp [bucketKeys, bucketCount]
  | cons a ts ih =>
    have hkeys : bucketKeys (a :: ts) = insert (⌊a⌋₊) (bucketKeys ts) := by
      simp [bucketKeys]
    rw [hkeys]
    by_cases hmem : ⌊a⌋₊ ∈ bucketKeys ts
    · rw [Finset.insert_eq_self.mpr hmem]
      have h1 : ∑ s ∈ bucketKeys ts, bucketCount (a :: ts) s =
          (∑ s ∈ bucketKeys ts, if ⌊a⌋₊ = s then 1 else 0) +
            ∑ s ∈ bucketKeys ts, bucketCount ts s := by
        rw [← Finset.sum_add_distrib]
        exact Finset.sum_congr rfl (fun s _ => bucketCount_cons a ts s)
      rw [h1, Finset.sum_ite_eq, if_pos hmem, ih]
      simp only [List.length_cons]
      omega
    · rw [Finset.sum_insert hmem]
      have h1 : ∑ s ∈ bucketKeys ts, bucketCount (a :: ts) s =
          ∑ s ∈ bucketKeys ts, bucketCount ts s := by
        refine Finset.sum_congr rfl (fun s hs => ?_)
        rw [bucketCount_cons]
        have hne : ⌊a⌋₊ ≠ s := fun h => hmem (h ▸ hs)
        simp [hne]
      rw [h1, ih, bucketCount_cons, bucketCount_eq_zero hmem]
      simp
      omega

theorem secondOfFrame_eq_zero (fps : ℚ) (hfps : 0 < fps) {k n : ℕ} (hk : k < n)
    (hdur : (n : ℚ) / fps < 1) : secondOfFrame fps k = 0 := by
  rw [secondOfFrame, if_pos hfps, Nat.floor_eq_zero]
  have h1 : (k : ℚ) < (n : ℚ) := by exact_mod_cast hk
  calc (k : ℚ) / fps < (n : ℚ) / fps := (div_lt_div_iff_of_pos_right hfps).mpr h1
    _ < 1 := hdur

/-- C8: for any declared rate, any frame count and any stride, the
per-second bucket frame counts sum to the number of sampled frames;
and when the whole video is shorter than one second there is a single
bucket 0, holding every sampled frame, and that bucket (being the last)
is flagged incomplete. -/
theorem claim_C8 (fps : ℚ) (n r : ℕ) (hfps : 0 < fps) (hr : 0 < r) (hn : 0 < n) :
    (∑ s ∈ bucketKeys (sampledTimestamps fps n r),
        bucketCount (sampledTimestamps fps n r) s =
      (sampledTimestamps fps n r).length) ∧
      ((n : ℚ) / fps < 1 →
        bucketKeys (sampledTimestamps fps n r) = {0} ∧
        bucketCount (sampledTimestamps fps n r) 0 =
          (sampledTimestamps fps n r).length ∧
        isCompleteSecond fps n 0 = false) := by
  refine ⟨sum_bucketCount _, ?_⟩
  intro hdur
  have hall : ∀ t ∈ sampledTimestamps fps n r, ⌊t⌋₊ = 0 := by
    intro t ht
    rw [sampledTimestamps, List.mem_map] at ht
    obtain ⟨k, hkmem, rfl⟩ := ht
    rw [List.mem_filter, List.mem_range] at hkmem
    obtain ⟨hk, -⟩ := hkmem
    rw [if_pos hfps, Nat.floor_eq_zero]
    have h1 : (k : ℚ) < (n : ℚ) := by exact_mod_cast hk
    calc (k : ℚ) / fps < (n : ℚ) / fps := (div_lt_div_iff_of_pos_right hfps).mpr h1
      _ < 1 := hdur
  have hlen : 0 < (sampledTimestamps fps n r).length := by
    rw [sampledTimestamps, List.length_map]
    have hmem : 0 ∈ (List.range n).filter (fun k => k % r = 0) := by
      rw [List.mem_filter]
      exact ⟨List.mem_range.mpr hn, by simp⟩
    exact List.length_pos.mpr (List.ne_nil_of_mem hmem)
  have hne : sampledTimestamps fps n r ≠ [] := by
    intro h
    rw [h] at hlen
    simp at hlen
  refine ⟨?_, ?_, ?_⟩
  · ext x
    simp only [bucketKeys, List.mem_toFinset, List.mem_map, Finset.mem_singleton]
    constructor
    · rintro ⟨t, ht, rfl⟩
      exact hall t ht
    · rintro rfl
      obtain ⟨t, ht⟩ := List.exists_mem_of_ne_nil _ hne
      exact ⟨t, ht, hall t ht⟩
  · rw [bucketCount]
    have hfe : (sampledTimestamps fps n r).filter (fun t => ⌊t⌋₊ = 0) =
        sampledTimestamps fps n r :=
      List.filter_eq_self.mpr (by intro t ht; simpa using hall t ht)
    rw [hfe]
  · have hls : lastSecond fps n = 0 := by
      apply le_antisymm
      · apply foldl_max_le_of
        · exact le_refl 0
        · intro x hx
          simp only [secondsList, List.mem_map, List.mem_range] at hx
          obtain ⟨k, hk, rfl⟩ := hx
          exact le_of_eq (secondOfFrame_eq_zero fps hfps hk hdur)
      · exact Nat.zero_le _
    simp [isCompleteSecond, hls]

/-- C8 witness: the statement instantiated at declared rate 10 with 5
frames and stride 2 (a half-second video). -/
theorem claim_C8_witness :
    ((∑ s ∈ bucketKeys (sampledTimestamps 10 5 2),
        bucketCount (sampledTimestamps 10 5 2) s =
      (sampledTimestamps 10 5 2).length) ∧
      ((5 : ℚ) / 10 < 1 →
        bucketKeys (sampledTimestamps 10 5 2) = {0} ∧
        bucketCount (sampledTimestamps 10 5 2) 0 =
          (sampledTimestamps 10 5 2).length ∧
        isCompleteSecond 10 5 0 = false)) ∧
      bucketKeys (sampledTimestamps 10 5 2) = {0} :=
  ⟨claim_C8 10 5 2 (by norm_num) (by norm_num) (by norm_num),
    ((claim_C8 10 5 2 (by norm_num) (by norm_num) (by norm_num)).2
      (by norm_num)).1⟩

theorem sum_zero_all_zero : ∀ l : List ℝ, (∀ x ∈ l, 0 ≤ x) → l.sum = 0 →
    ∀ x ∈ l, x = 0 := by
  intro l
  induction l with
  | nil => intro _ _ x hx; simp at hx
  | cons a l ih =>
    intro hpos hsum x hx
    have hsl : 0 ≤ l.sum :=
      List.sum_nonneg (fun y hy => hpos y (List.mem_cons_of_mem a hy))
    have ha : 0 ≤ a := hpos a (List.mem_cons_self a l)
    rw [List.sum_cons] at hsum
    have ha0 : a = 0 := by linarith
    have hl0 : l.sum = 0 := by linarith
    rcases List.mem_cons.mp hx with rfl | hx2
    · exact ha0
    · exact ih (fun y hy => hpos y (List.mem_cons_of_mem a hy)) hl0 x hx2

theorem jerkValues_all_zero : ∀ (l : List ℝ), (∀ x ∈ l, x = 0) →
    ∀ j ∈ jerkValues l, j = 0 := by
  intro l
  induction l with
  | nil => intro _ j hj; simp [jerkValues] at hj
  | cons a l ih =>
    intro hz j hj
    cases l with
    | nil => simp [jerkValues] at hj
    | cons b l2 =>
      cases l2 with
      | nil => simp [jerkValues] at hj
      | cons c tl =>
        rw [show jerkValues (a :: b :: c :: tl) =
            |c - 2 * b + a| :: jerkValues (b :: c :: tl) from rfl] at hj
        rcases List.mem_cons.mp hj with rfl | hj2
        · have ha := hz a (by simp)
          have hb := hz b (by simp)
          have hc := hz c (by simp)
          rw [ha, hb, hc]
          norm_num
        · exact ih (fun x hx => hz x (List.mem_cons_of_mem a hx)) j hj2

theorem meanR_all_zero {l : List ℝ} (h : ∀ x ∈ l, x = 0) : meanR l = 0 := by
  rw [meanR, List.sum_eq_zero h, zero_div]

theorem varR_all_zero {l : List ℝ} (h : ∀ x ∈ l, x = 0) : varR l = 0 := by
  rw [varR, List.sum_eq_zero, zero_div]
  intro y hy
  rw [List.mem_map] at hy
  obtain ⟨x, hx, rfl⟩ := hy
  rw [h x hx, meanR_all_zero h]
  norm_num

theorem spikeFrac_all_zero {l : List ℝ} (h : ∀ x ∈ l, x = 0) : spikeFrac l = 0 := by
  have hc : spikeCount l = 0 := by
    rw [spikeCount, List.length_eq_zero, List.filter_eq_nil_iff]
    intro j hj
    rw [meanR_all_zero h, stdR, varR_all_zero h, Real.sqrt_zero, h j hj]
    norm_num
  rw [spikeFrac, hc]
  norm_num

/-- C5: for nonnegative per-pair motion magnitudes with at least one
jerk sample, jerkiness_score equals min(100, 50 * spike_ratio +
50 * mean_jerk / mean_motion) with the second term zero when the mean
motion is zero (the spike-ratio term still present — it is then itself
zero, since zero mean motion over nonnegative magnitudes forces every
jerk sample to zero), and the continuity score is 100 minus the
jerkiness score. -/
theorem claim_C5 (mags : List ℝ) (hpos : ∀ x ∈ mags, 0 ≤ x)
    (hj : jerkValues mags ≠ []) :
    jerkinessScore mags =
      min 100 (50 * spikeFrac (jerkValues mags) +
        (if 0 < meanR mags then 50 * meanR (jerkValues mags) / meanR mags else 0)) ∧
      (meanR mags = 0 →
        jerkinessScore mags = min 100 (50 * spikeFrac (jerkValues mags))) ∧
      motionContinuityScore mags = 100 - jerkinessScore mags := by
  by_cases hm : 0 < meanR mags
  · refine ⟨?_, ?_, rfl⟩
    · rw [jerkinessScore, if_neg hj, if_pos hm, if_pos hm]
      congr 1
      ring
    · intro h0
      rw [h0] at hm
      norm_num at hm
  · have hge : 0 ≤ meanR mags :=
      div_nonneg (List.sum_nonneg hpos) (Nat.cast_nonneg _)
    have h0 : meanR mags = 0 := le_antisymm (not_lt.mp hm) hge
    have hne : mags ≠ [] := by
      intro h
      rw [h] at hj
      simp [jerkValues] at hj
    have hsum : mags.sum = 0 := by
      rw [meanR, div_eq_zero_iff] at h0
      rcases h0 with h0 | h0
      · exact h0
      · exact absurd h0 (by
          simp only [ne_eq, Nat.cast_eq_zero]
          exact fun hc => hne (List.length_eq_zero.mp hc))
    have hallz : ∀ x ∈ mags, x = 0 := sum_zero_all_zero mags hpos hsum
    have hjz : ∀ j ∈ jerkValues mags, j = 0 := jerkValues_all_zero mags hallz
    have hsf : spikeFrac (jerkValues mags) = 0 := spikeFrac_all_zero hjz
    refine ⟨?_, ?_, rfl⟩
    · rw [jerkinessScore, if_neg hj, if_neg hm, if_neg hm, hsf]
      norm_num
    · intro _
      rw [jerkinessScore, if_neg hj, if_neg hm, hsf]
      norm_num

/-- C5 witness: the statement instantiated on the constant magnitude
list 1, 1, 1 (one jerk sample, value 0). -/
theorem claim_C5_witness :
    (∀ x ∈ ([1, 1, 1] : List ℝ), 0 ≤ x) ∧ jerkValues [1, 1, 1] ≠ [] ∧
      (jerkinessScore [1, 1, 1] =
        min 100 (50 * spikeFrac (jerkValues [1, 1, 1]) +
          (if 0 < meanR [1, 1, 1]
            then 50 * meanR (jerkValues [1, 1, 1]) / meanR [1, 1, 1] else 0)) ∧
        (meanR [1, 1, 1] = 0 →
          jerkinessScore [1, 1, 1] = min 100 (50 * spikeFrac (jerkValues [1, 1, 1]))) ∧
        motionContinuityScore [1, 1, 1] = 100 - jerkinessScore [1, 1, 1]) := by
  have hpos : ∀ x ∈ ([1, 1, 1] : List ℝ), 0 ≤ x := by
    intro x hx
    simp at hx
    rw [hx]
    norm_num
  have hj : jerkValues ([1, 1, 1] : List ℝ) ≠ [] := by simp [jerkValues]
  exact ⟨hpos, hj, claim_C5 [1, 1, 1] hpos hj⟩

theorem round2R_zero : round2R 0 = 0 := by
  rw [round2R, zero_mul, round_zero]
  simp

theorem round2R_int (z : ℤ) : round2R ((z : ℝ)) = (z : ℝ) := by
  rw [round2R]
  have h : (z : ℝ) * 100 = ((z * 100 : ℤ) : ℝ) := by push_cast; ring
  rw [h, round_intCast]
  push_cast
  ring

/-- C10: with no motion magnitudes (fewer than 2 sampled frames) the
motion-continuity analyzer returns the default record whose
jerkiness_score is 0 but whose motion_continuity_score key is absent,
and the aggregator's .get default then yields motion sub-score 0; with
at least one magnitude and zero jerkiness the record carries continuity
100 and the sub-score is the full 25. -/
theorem claim_C10 (mags : List ℝ) :
    (mags = [] → (analyzeMotionContinuity mags).motion_continuity_score = none ∧
      (analyzeMotionContinuity mags).jerkiness_score = 0 ∧
      motionContSubScoreR mags = 0) ∧
      (mags ≠ [] → jerkinessScore mags = 0 →
        (analyzeMotionContinuity mags).motion_continuity_score = some 100 ∧
        motionContSubScoreR mags = 25) := by
  constructor
  · intro h
    subst h
    have hrec : analyzeMotionContinuity [] = ⟨0, 0, 0, 0, 0, none⟩ := by
      rw [analyzeMotionContinuity, if_pos rfl]
    refine ⟨by rw [hrec], by rw [hrec], ?_⟩
    rw [motionContSubScoreR, hrec]
    simp only [Option.getD_none]
    rw [zero_mul, round2R_zero]
  · intro hne hz
    have hrec : analyzeMotionContinuity mags =
        ⟨meanR mags, stdR mags,
          if jerkValues mags = [] then 0 else meanR (jerkValues mags),
          if jerkValues mags = [] then 0 else spikeFrac (jerkValues mags),
          jerkinessScore mags,
          some (100 - jerkinessScore mags)⟩ := by
      rw [analyzeMotionContinuity, if_neg hne]
    have hval : (analyzeMotionContinuity mags).motion_continuity_score = some 100 := by
      rw [hrec]
      simp [hz]
    refine ⟨hval, ?_⟩
    rw [motionContSubScoreR, hval]
    simp only [Option.getD_some]
    have h100 : (100 : ℝ) * (1 / 4) = ((25 : ℤ) : ℝ) := by norm_num
    rw [h100, round2R_int]
    norm_num

/-- C10 witness: sub-score 0 on the empty magnitude list and 25 on the
two-frame list 1, 1 (one magnitude, no jerk samples, jerkiness 0). -/
theorem claim_C10_witness :
    motionContSubScoreR [] = 0 ∧ motionContSubScoreR [1, 1] = 25 := by
  have h1 := ((claim_C10 []).1 rfl).2.2
  have hz : jerkinessScore ([1, 1] : List ℝ) = 0 := by
    simp [jerkinessScore, jerkValues]
  have h2 := ((claim_C10 [1, 1]).2 (by simp) hz).2
  exact ⟨h1, h2⟩

theorem mem_blockRows {hgt y : ℕ} {i : Fin 8} :
    y ∈ blockRows hgt i ↔ i.val * (hgt / 8) ≤ y ∧
      y < (if i.val = 7 then hgt else (i.val + 1) * (hgt / 8)) := by
  rw [blockRows, Finset.mem_Ico]

theorem rowCover (hgt y : ℕ) (hy : y < hgt) : ∃! i : Fin 8, y ∈ blockRows hgt i := by
  by_cases hg0 : hgt / 8 = 0
  · have hmem : y ∈ blockRows hgt ⟨7, by norm_num⟩ := by
      rw [mem_blockRows]
      show 7 * (hgt / 8) ≤ y ∧ y < (if (7 : ℕ) = 7 then hgt else (7 + 1) * (hgt / 8))
      rw [if_pos rfl, hg0]
      exact ⟨by omega, hy⟩
    refine ⟨⟨7, by norm_num⟩, hmem, ?_⟩
    intro i hi
    have hi2 := mem_blockRows.mp hi
    by_cases h7 : i.val = 7
    · exact Fin.ext h7
    · rw [if_neg h7, hg0] at hi2
      omega
  · have hgpos : 0 < hgt / 8 := Nat.pos_of_ne_zero hg0
    by_cases hq : y / (hgt / 8) < 7
    · have hmem : y ∈ blockRows hgt ⟨y / (hgt / 8), lt_trans hq (by norm_num)⟩ := by
        rw [mem_blockRows]
        show y / (hgt / 8) * (hgt / 8) ≤ y ∧ y <
          (if y / (hgt / 8) = 7 then hgt else (y / (hgt / 8) + 1) * (hgt / 8))
        rw [if_neg (Nat.ne_of_lt hq)]
        exact ⟨(Nat.le_div_iff_mul_le hgpos).mp (le_refl _),
          (Nat.div_lt_iff_lt_mul hgpos).mp (Nat.lt_succ_self _)⟩
      refine ⟨⟨y / (hgt / 8), lt_trans hq (by norm_num)⟩, hmem, ?_⟩
      intro i hi
      have hi2 := mem_blockRows.mp hi
      by_cases h7 : i.val = 7
      · rw [if_pos h7] at hi2
        have h1 : 7 ≤ y / (hgt / 8) :=
          (Nat.le_div_iff_mul_le hgpos).mpr (by rw [← h7]; exact hi2.1)
        exact absurd h1 (not_le.mpr hq)
      · rw [if_neg h7] at hi2
        have h1 : i.val ≤ y / (hgt / 8) := (Nat.le_div_iff_mul_le hgpos).mpr hi2.1
        have h2 : y / (hgt / 8) < i.val + 1 := (Nat.div_lt_iff_lt_mul hgpos).mpr hi2.2
        exact Fin.ext (le_antisymm h1 (Nat.lt_succ_iff.mp h2))
    · have hq2 : 7 ≤ y / (hgt / 8) := not_lt.mp hq
      have hmem : y ∈ blockRows hgt ⟨7, by norm_num⟩ := by
        rw [mem_blockRows]
        show 7 * (hgt / 8) ≤ y ∧ y < (if (7 : ℕ) = 7 then hgt else (7 + 1) * (hgt / 8))
        rw [if_pos rfl]
        exact ⟨(Nat.le_div_iff_mul_le hgpos).mp hq2, hy⟩
      refine ⟨⟨7, by norm_num⟩, hmem, ?_⟩
      intro i hi
      have hi2 := mem_blockRows.mp hi
      by_cases h7 : i.val = 7
      · exact Fin.ext h7
      · rw [if_neg h7] at hi2
        have h2 : y / (hgt / 8) < i.val + 1 := (Nat.div_lt_iff_lt_mul hgpos).mpr hi2.2
        have h3 : (7 : ℕ) < i.val + 1 := lt_of_le_of_lt hq2 h2
        have h8 : i.val < 8 := i.isLt
        omega

theorem mem_blockSet {hgt wd : ℕ} {y : Fin hgt} {x : Fin wd} {i j : Fin 8} :
    (y, x) ∈ blockSet hgt wd i j ↔
      y.val ∈ blockRows hgt i ∧ x.val ∈ blockRows wd j := by
  rw [blockSet, Finset.mem_filter]
  simp

theorem fsVar_nonneg {ι : Type} (s : Finset ι) (f : ι → ℝ) : 0 ≤ fsVar s f :=
  div_nonneg (Finset.sum_nonneg fun x _ => sq_nonneg _) (Nat.cast_nonneg _)

theorem blockScore_nonneg {hgt wd : ℕ} (F : Fin hgt → Fin wd → ℝ × ℝ)
    (i j : Fin 8) : 0 ≤ blockScore F i j := by
  have h1 := fsVar_nonneg (blockSet hgt wd i j) (fun p => flowMag (F p.1 p.2))
  have h2 := fsVar_nonneg (blockSet hgt wd i j) (fun p => flowDir (F p.1 p.2))
  rw [blockScore]
  nlinarith

theorem pairWobble_nonneg {hgt wd : ℕ} (F : Fin hgt → Fin wd → ℝ × ℝ) :
    0 ≤ pairWobble F := by
  rw [pairWobble]
  apply div_nonneg _ (by norm_num)
  exact Finset.sum_nonneg fun i _ =>
    Finset.sum_nonneg fun j _ => blockScore_nonneg F i j

theorem meanR_nonneg {l : List ℝ} (h : ∀ x ∈ l, 0 ≤ x) : 0 ≤ meanR l :=
  div_nonneg (List.sum_nonneg h) (Nat.cast_nonneg _)

/-- C6: the wobble analyzer partitions each flow field into an 8x8 grid
of blocks — every pixel lies in exactly one block, edge blocks
absorbing the remainder — combines per-block magnitude and direction
variances as mag_var + 10 * dir_var, averages the 64 block scores per
pair, and the final distortion score is min(100, 10 * mean of the
per-pair wobble values), which lies in 0..100. -/
theorem claim_C6 {hgt wd : ℕ} (flows : List (Fin hgt → Fin wd → ℝ × ℝ))
    (hh : 8 ≤ hgt) (hw : 8 ≤ wd) (hne : flows ≠ []) :
    (∀ (y : Fin hgt) (x : Fin wd),
      ∃! b : Fin 8 × Fin 8, (y, x) ∈ blockSet hgt wd b.1 b.2) ∧
      wobbleDistortionScore flows = min 100 (10 * meanR (flows.map pairWobble)) ∧
      0 ≤ wobbleDistortionScore flows ∧ wobbleDistortionScore flows ≤ 100 := by
  have hpart : ∀ (y : Fin hgt) (x : Fin wd),
      ∃! b : Fin 8 × Fin 8, (y, x) ∈ blockSet hgt wd b.1 b.2 := by
    intro y x
    obtain ⟨i, hi, hiu⟩ := rowCover hgt y.val y.isLt
    obtain ⟨j, hj, hju⟩ := rowCover wd x.val x.isLt
    refine ⟨(i, j), mem_blockSet.mpr ⟨hi, hj⟩, ?_⟩
    rintro ⟨i2, j2⟩ hb
    have hb2 := mem_blockSet.mp hb
    exact Prod.ext (hiu i2 hb2.1) (hju j2 hb2.2)
  have hmean : 0 ≤ meanR (flows.map pairWobble) := by
    apply meanR_nonneg
    intro v hv
    rw [List.mem_map] at hv
    obtain ⟨F, _, rfl⟩ := hv
    exact pairWobble_nonneg F
  cases flows with
  | nil => exact absurd rfl hne
  | cons F l =>
    have heq : wobbleDistortionScore (F :: l) =
        min 100 (meanR ((F :: l).map pairWobble) * 10) := rfl
    refine ⟨hpart, ?_, ?_, ?_⟩
    · rw [heq]
      congr 1
      ring
    · rw [heq]
      exact le_min (by norm_num) (by nlinarith [hmean])
    · rw [heq]
      exact min_le_left _ _

/-- C6 witness: the statement instantiated on a single all-zero 8x8
flow field. -/
theorem claim_C6_witness :
    (∀ (y : Fin 8) (x : Fin 8),
      ∃! b : Fin 8 × Fin 8, (y, x) ∈ blockSet 8 8 b.1 b.2) ∧
      wobbleDistortionScore [flowZero] =
        min 100 (10 * meanR ([flowZero].map pairWobble)) ∧
      0 ≤ wobbleDistortionScore [flowZero] ∧
      wobbleDistortionScore [flowZero] ≤ 100 :=
  claim_C6 [flowZero] (le_refl 8) (le_refl 8) (by simp)

/-- C9 witness: the statement instantiated on a concrete 1x2 buffer of
intensities 0 and 255. -/
theorem claim_C9_witness :
    0 < sqDevSum bufDemo ∧
      (nccScore bufDemo bufDemo = 1 ∧ (99 / 100 : ℝ) ≤ nccScore bufDemo bufDemo ∧
        meanAbsDiff bufDemo bufDemo = 0 ∧
        classifyFrame (49 / 50) (19 / 20) bufDemo bufDemo = FrameClass.exactDup) :=
  ⟨by norm_num [sqDevSum, gridMean, bufDemo, Fin.sum_univ_one, Fin.sum_univ_two],
    claim_C9 bufDemo
      (by norm_num [sqDevSum, gridMean, bufDemo, Fin.sum_univ_one, Fin.sum_univ_two])⟩

end VideoAnalyser
